import Mathlib

/-!
A shallow embedding of `parse-two-not-touch.py`, the puzzle-board parser:
pixel grids, binary thresholding (OpenCV `THRESH_BINARY`, which writes the
max value exactly when the source pixel is strictly greater than the
cutoff), flood-fill area discovery with sentinel repainting, cell
filtering, and cell-to-region assignment.  Fallible Python code (division
by zero, `min` of an empty sequence, `range` with step zero, the
unassigned-cell `RuntimeError`) is embedded with `Except`.
-/

/-- Intensity palette, source lines 13-17 (`WHITE = 255`). -/
def WHITE : Nat := 255

/-- Embeds `ALMOST_WHITE = WHITE - 10`, source line 14. -/
def ALMOST_WHITE : Nat := WHITE - 10

/-- Embeds `MID_GRAY = WHITE//2`, source line 15. -/
def MID_GRAY : Nat := WHITE / 2

/-- Embeds `DARK_GRAY = WHITE//4`, source line 16. -/
def DARK_GRAY : Nat := WHITE / 4

/-- Embeds `BLACK = 0`, source line 17. -/
def BLACK : Nat := 0

/-- A pixel coordinate `(row, col)`, source lines 20-24. -/
structure Point where
  row : Nat
  col : Nat
deriving DecidableEq, Repr

/-- A rectangular area `(row, col, height, width)`, source lines 27-45. -/
structure Rect where
  row : Nat
  col : Nat
  height : Nat
  width : Nat
deriving DecidableEq, Repr, Inhabited

/-- Embeds `Rect.area`, source lines 35-37: `width * height`. -/
def Rect.area (r : Rect) : Nat := r.width * r.height

/-- Embeds `Rect.center`, source lines 39-41:
`Point(row + height//2, col + width//2)`. -/
def Rect.center (r : Rect) : Point := ⟨r.row + r.height / 2, r.col + r.width / 2⟩

/-- An area returned by `find_areas`: either a bounding `Rect` or a set of
all `Point`s in the area (the `Union[Rect, Set[Point]]` return type). -/
inductive Area where
  | rect : Rect → Area
  | points : Finset Point → Area
deriving DecidableEq

/-- A single-channel grayscale image: dimensions plus an intensity
function (the `np.ndarray`). -/
structure Img where
  rows : Nat
  cols : Nat
  val : Point → Nat

instance : Inhabited Img := ⟨⟨0, 0, fun _ => 0⟩⟩

/-- The exceptions the embedded code can raise. -/
inductive PyError where
  | zeroDivisionError
  | valueErrorEmptyMin
  | valueErrorRangeStepZero
  | cellNotInRegion : Rect → PyError
deriving DecidableEq

instance {ε α : Type} [DecidableEq ε] [DecidableEq α] : DecidableEq (Except ε α) := fun a b => by
  cases a <;> cases b
  case error.error e f =>
    exact if h : e = f then isTrue (by rw [h])
      else isFalse (by intro hc; injection hc; exact h (by assumption))
  case error.ok e v => exact isFalse (by intro hc; exact Except.noConfusion hc)
  case ok.error v e => exact isFalse (by intro hc; exact Except.noConfusion hc)
  case ok.ok v w =>
    exact if h : v = w then isTrue (by rw [h])
      else isFalse (by intro hc; injection hc; exact h (by assumption))

/-- A coordinate lies inside the image bounds. -/
def inB (img : Img) (p : Point) : Prop := p.row < img.rows ∧ p.col < img.cols

instance (img : Img) (p : Point) : Decidable (inB img p) := by
  unfold inB; infer_instance

/-- The 4-connectivity relation between pixels (the default connectivity of
`cv.floodFill`). -/
def adjacent (p q : Point) : Prop :=
  (p.row = q.row ∧ (p.col + 1 = q.col ∨ q.col + 1 = p.col)) ∨
  (p.col = q.col ∧ (p.row + 1 = q.row ∨ q.row + 1 = p.row))

instance (p q : Point) : Decidable (adjacent p q) := by
  unfold adjacent; infer_instance

/-- All in-bounds coordinates of an image, as a finite set. -/
def allPointsF (img : Img) : Finset Point :=
  (Finset.range img.rows ×ˢ Finset.range img.cols).image fun q => ⟨q.1, q.2⟩

/-- All in-bounds coordinates in row-major scan order, mirroring
`for row in range(rows): for col in range(cols)` (source lines 175-176). -/
def allCoordsL (img : Img) : List Point :=
  (List.range img.rows).flatMap fun r => (List.range img.cols).map fun c => ⟨r, c⟩

/-- Overwrite every pixel of `s` with intensity `v` (the write-back part
of one `cv.floodFill` call). -/
def repaint (img : Img) (s : Finset Point) (v : Nat) : Img :=
  ⟨img.rows, img.cols, fun q => if q ∈ s then v else img.val q⟩

/-- All in-bounds pixels currently holding intensity `v`; with
`v = DARK_GRAY` this is the all-points collection of source lines 183-187. -/
def grayPixels (img : Img) (v : Nat) : Finset Point :=
  (allPointsF img).filter fun q => img.val q = v

/-- One growth step of flood fill: add every in-bounds pixel of intensity
`v` adjacent to the set so far. -/
def floodStep (img : Img) (v : Nat) (s : Finset Point) : Finset Point :=
  s ∪ (allPointsF img).filter fun q => img.val q = v ∧ ∃ r ∈ s, adjacent r q

/-- The connected component of the seed `p` through pixels holding the
seed's intensity: the flood-fill growth step iterated to its fixpoint
(`rows * cols` iterations always suffice). -/
def floodSet (img : Img) (p : Point) : Finset Point :=
  (floodStep img (img.val p))^[img.rows * img.cols] {p}

/-- Embeds `cv.floodFill(img, None, seed, v)`: repaint the connected component of
the seed's intensity with `v`; also return the filled component (OpenCV
returns its bounding rectangle). -/
def floodFill (img : Img) (p : Point) (v : Nat) : Img × Finset Point :=
  (repaint img (floodSet img p) v, floodSet img p)

/-- Least element of a finite set of naturals, with a default for the
empty set. -/
def finsetMinD (s : Finset Nat) (d : Nat) : Nat :=
  if h : s.Nonempty then s.min' h else d

/-- Greatest element of a finite set of naturals, with a default. -/
def finsetMaxD (s : Finset Nat) (d : Nat) : Nat :=
  if h : s.Nonempty then s.max' h else d

/-- The bounding rectangle of a set of points, converted through
`Rect.from_cv` (source lines 29-33): the rect `cv.floodFill` reports. -/
def boundingRect (s : Finset Point) : Rect :=
  let rmin := finsetMinD (s.image Point.row) 0
  let rmax := finsetMaxD (s.image Point.row) 0
  let cmin := finsetMinD (s.image Point.col) 0
  let cmax := finsetMaxD (s.image Point.col) 0
  ⟨rmin, cmin, rmax + 1 - rmin, cmax + 1 - cmin⟩

/-- Embeds `cv.threshold(img, cutoff, WHITE, cv.THRESH_BINARY)` (source line
163): a pixel becomes `WHITE` exactly when it is strictly greater than
the cutoff, else `BLACK`. -/
def threshImg (img : Img) (cutoff : Nat) : Img :=
  ⟨img.rows, img.cols, fun p => if cutoff < img.val p then WHITE else BLACK⟩

/-- Embeds `cv.copyMakeBorder(img, 1, 1, 1, 1, cv.BORDER_CONSTANT, value=v)`
(source line 169): a copy one pixel larger on each side, border pixels
set to `v`. -/
def padBorder (img : Img) (v : Nat) : Img :=
  ⟨img.rows + 2, img.cols + 2, fun p =>
    if p.row = 0 ∨ p.row = img.rows + 1 ∨ p.col = 0 ∨ p.col = img.cols + 1 then v
    else img.val ⟨p.row - 1, p.col - 1⟩⟩

/-- The preprocessed working image of `find_areas`, source lines 163-170:
threshold, then (when `fill_border`) pad with a white border and flood
`(0,0)` to black. -/
def baseImg (img : Img) (cutoff : Nat) (fill_border : Bool) : Img :=
  let t := threshImg img cutoff
  if fill_border then (floodFill (padBorder t WHITE) ⟨0, 0⟩ BLACK).1 else t

/-- One iteration of the scan loop of `find_areas`, source lines 175-194:
on a target-colored pixel, flood the component to `DARK_GRAY`, record the
area (all dark-gray points, or the bounding rect), then re-flood the same
component to `MID_GRAY`. -/
def scanStep (tgt : Nat) (all_points : Bool) (st : Img × List Area) (p : Point) :
    Img × List Area :=
  if st.1.val p = tgt then
    let f1 := floodFill st.1 p DARK_GRAY
    let a : Area :=
      if all_points then Area.points (grayPixels f1.1 DARK_GRAY)
      else Area.rect (boundingRect f1.2)
    ((floodFill f1.1 p MID_GRAY).1, st.2 ++ [a])
  else st

/-- Embeds `find_areas(img, threshold, fill_border, find_black, all_points)`,
source lines 143-196. -/
def find_areas (img : Img) (threshold : Nat)
    (fill_border find_black all_points : Bool) : List Area :=
  let aimg := baseImg img threshold fill_border
  let tgt := if find_black then BLACK else WHITE
  ((allCoordsL aimg).foldl (scanStep tgt all_points) (aimg, [])).2

/-- The default value of the `threshold` parameter in the signature of
`find_areas` (source line 145: `threshold: int = MID_GRAY`). -/
def find_areas_default_threshold : Nat := MID_GRAY

/-- Embeds `find_puzzles`, source lines 108-110: `find_areas(img,
find_black=True, fill_border=False)` with the remaining defaults. -/
def find_puzzles (img : Img) : List Area :=
  find_areas img find_areas_default_threshold false true false

/-- Embeds `find_regions`, source lines 125-127: `find_areas(img,
all_points=True)` with the remaining defaults. -/
def find_regions (img : Img) : List Area :=
  find_areas img find_areas_default_threshold true false true

/-- Extract the bounding rectangles from a list of areas (with
`all_points=False` every element is a `Rect`). -/
def rectsOf : List Area → List Rect
  | [] => []
  | Area.rect r :: rest => r :: rectsOf rest
  | Area.points _ :: rest => rectsOf rest

/-- The outlier post-filter of `find_cells`, source lines 134-138:
`avg_area = sum(areas)/len(cells)`, `min_area = avg_area/4`, keep the
cells with `area >= min_area` (exact rational arithmetic stands in for
Python floats). -/
def filterCells (cells : List Rect) : List Rect :=
  let avg_area : ℚ := ((cells.map Rect.area).sum : ℚ) / (cells.length : ℚ)
  let min_area : ℚ := avg_area / 4
  cells.filter fun s => min_area ≤ (s.area : ℚ)

/-- Embeds `find_cells`, source lines 130-140: find near-white areas, then drop
undersized ones.  When no areas were found, `sum(...)/len(cells)` is
`0/0` and Python raises `ZeroDivisionError`. -/
def find_cells (img : Img) : Except PyError (List Rect) :=
  let cells := rectsOf (find_areas img ALMOST_WHITE true false false)
  if cells.isEmpty then Except.error PyError.zeroDivisionError
  else Except.ok (filterCells cells)

/-- The low-resolution sort key of `locate_cells`, source lines 207-209:
`((row - min_row + row_separation//2) // row_separation, col)`. -/
def bucketKey (min_row rs : Nat) (c : Rect) : Nat × Nat :=
  ((c.row - min_row + rs / 2) / rs, c.col)

/-- Lexicographic comparison of Python key tuples. -/
def keyLeB (a b : Nat × Nat) : Bool :=
  decide (a.1 < b.1 ∨ (a.1 = b.1 ∧ a.2 ≤ b.2))

/-- Insert a cell into an already sorted list, after every element the
comparison places at or before it; the building block of a stable sort. -/
def insertKey (le : Rect → Rect → Bool) (a : Rect) : List Rect → List Rect
  | [] => [a]
  | b :: l => if le b a then b :: insertKey le a l else a :: b :: l

/-- Stable insertion sort: the characterization of Python's stable
`sorted(cells, key=...)` (a permutation, ordered by the comparison, ties
kept in input order). -/
def stableSortLoop (le : Rect → Rect → Bool) (acc : List Rect) : List Rect → List Rect
  | [] => acc
  | a :: l => stableSortLoop le (insertKey le a acc) l

/-- Embeds `sorted(cells, key=...)` with a boolean comparison derived from the
key. -/
def stableSort (le : Rect → Rect → Bool) (l : List Rect) : List Rect :=
  stableSortLoop le [] l

/-- Embeds `min(s.row for s in cells)` over the nonempty list `c :: cs`. -/
def minRowOfL (c : Rect) (cs : List Rect) : Nat :=
  cs.foldl (fun m s => min m s.row) c.row

/-- Embeds `max(s.row for s in cells)` over the nonempty list `c :: cs`. -/
def maxRowOfL (c : Rect) (cs : List Rect) : Nat :=
  cs.foldl (fun m s => max m s.row) c.row

/-- Embeds `row_separation = (max_row - min_row) // (height - 1)`, source line
206. -/
def rowSep (c : Rect) (cs : List Rect) (height : Nat) : Nat :=
  (maxRowOfL c cs - minRowOfL c cs) / (height - 1)

/-- The sorting phase of `locate_cells`, source lines 201-209: when
`height > 1`, sort stably by the bucketed key; `min` of an empty list
raises, and a zero `row_separation` raises `ZeroDivisionError` when the
key is first evaluated. -/
def sortCells (cells : List Rect) (height : Nat) : Except PyError (List Rect) :=
  if 1 < height then
    match cells with
    | [] => Except.error PyError.valueErrorEmptyMin
    | c :: cs =>
      let mr := minRowOfL c cs
      let rs := rowSep c cs height
      if rs = 0 then Except.error PyError.zeroDivisionError
      else Except.ok
        (stableSort (fun a b => keyLeB (bucketKey mr rs a) (bucketKey mr rs b)) (c :: cs))
  else Except.ok cells

/-- The inner region-search loop of `locate_cells`, source lines 214-217:
the index of the first region containing the point, if any. -/
def firstRegion (regions : List (Finset Point)) (p : Point) : Option Nat :=
  match regions with
  | [] => none
  | r :: rest => if p ∈ r then some 0 else (firstRegion rest p).map (· + 1)

/-- The assignment loop of `locate_cells`, source lines 211-219: map each
cell's center to its first containing region, raising on the first cell
whose center no region contains. -/
def assignAll (regions : List (Finset Point)) (cells : List Rect) :
    Except PyError (List Nat) :=
  match cells with
  | [] => Except.ok []
  | c :: cs =>
    match firstRegion regions c.center with
    | none => Except.error (PyError.cellNotInRegion c)
    | some i => (assignAll regions cs).map fun l => i :: l

/-- The chunking recursion behind `partition_list`, driven by a fuel
argument that the caller sets to the list length (each step consumes at
least one element, so the fuel is never exhausted). -/
def partitionGo (n : Nat) : Nat → List Nat → List (List Nat)
  | _, [] => []
  | 0, _ :: _ => []
  | fuel + 1, a :: rest => (a :: rest).take n :: partitionGo n fuel ((a :: rest).drop n)

/-- Embeds `partition_list(l, n)`, source lines 224-227: slices `l[i : i+n]` for
`i in range(0, len(l), n)` (a chunk length of `n`; the `n = 0` case is
guarded by the caller because `range` rejects a zero step). -/
def partition_list (l : List Nat) (n : Nat) : List (List Nat) :=
  match n with
  | 0 => []
  | n + 1 => partitionGo (n + 1) l.length l

/-- Embeds `locate_cells(regions, cells, height)`, source lines 199-221. -/
def locate_cells (regions : List (Finset Point)) (cells : List Rect) (height : Nat) :
    Except PyError (List (List Nat)) :=
  match sortCells cells height with
  | Except.error e => Except.error e
  | Except.ok sorted =>
    match assignAll regions sorted with
    | Except.error e => Except.error e
    | Except.ok locations =>
      if height = 0 then Except.error PyError.valueErrorRangeStepZero
      else Except.ok (partition_list locations height)

/-- One scan-loop iteration at the store level: `cv.floodFill` mutates
the working buffer `ref` in place; everything else is as in `scanStep`. -/
def scanStepStore (ref tgt : Nat) (all_points : Bool) (st : List Img × List Area)
    (p : Point) : List Img × List Area :=
  let r := scanStep tgt all_points (st.1.getD ref default, st.2) p
  (st.1.set ref r.1, r.2)

/-- Embeds `find_areas` at the level of a store of image buffers, making the
mutation structure of the source explicit: `cv.threshold` and
`cv.copyMakeBorder` each allocate a fresh buffer appended to the store,
and every `cv.floodFill` writes in place to the freshly allocated working
buffer, never to the caller's source buffer `src`. -/
def find_areas_store (store : List Img) (src : Nat) (threshold : Nat)
    (fill_border find_black all_points : Bool) : List Img × List Area :=
  let img := store.getD src default
  let t := threshImg img threshold
  let store1 := store ++ [t]
  let wb :=
    if fill_border then
      ((store1 ++ [padBorder t WHITE]).set store1.length
          (floodFill (padBorder t WHITE) ⟨0, 0⟩ BLACK).1,
        store1.length)
    else (store1, store.length)
  let tgt := if find_black then BLACK else WHITE
  (allCoordsL (wb.1.getD wb.2 default)).foldl (scanStepStore wb.2 tgt all_points) (wb.1, [])

/-- One step of pixel connectivity at intensity `v`: move to an adjacent
in-bounds pixel holding `v`. -/
def stepRel (img : Img) (v : Nat) (a b : Point) : Prop :=
  adjacent a b ∧ inB img b ∧ img.val b = v

/-- Reachability: `q` is reachable from the seed `p` through pixels holding the seed's
intensity: the specification of what `cv.floodFill` fills. -/
def Reaches (img : Img) (p q : Point) : Prop :=
  Relation.ReflTransGen (stepRel img (img.val p)) p q

/-- Union of a list of point sets. -/
def unionF (l : List (Finset Point)) : Finset Point := l.foldr (· ∪ ·) ∅

/-- The representation `find_areas` records for one discovered component:
its point set in `all_points` mode, its bounding rect otherwise. -/
def reprArea (all_points : Bool) (s : Finset Point) : Area :=
  if all_points then Area.points s else Area.rect (boundingRect s)

/-- All in-bounds pixels of the image holding the target intensity. -/
def targetPixels (img : Img) (v : Nat) : Finset Point :=
  (allPointsF img).filter fun q => img.val q = v

/-- A 1-pixel image of intensity 127 (equal to the default threshold). -/
def g127 : Img := ⟨1, 1, fun _ => 127⟩

/-- A 1-pixel image of intensity 128. -/
def g128 : Img := ⟨1, 1, fun _ => 128⟩

/-- A 1-pixel all-black image. -/
def black1 : Img := ⟨1, 1, fun _ => 0⟩

/-- A 1-pixel all-white image. -/
def white1 : Img := ⟨1, 1, fun _ => 255⟩

/-- Six 4x4 cells forming a 2-row by 3-column grid. -/
def c1Cells : List Rect :=
  [⟨0, 0, 4, 4⟩, ⟨0, 10, 4, 4⟩, ⟨0, 20, 4, 4⟩,
   ⟨10, 0, 4, 4⟩, ⟨10, 10, 4, 4⟩, ⟨10, 20, 4, 4⟩]

/-- Two regions: the top row of cell centers and the bottom row. -/
def c1Regions : List (Finset Point) :=
  [({⟨2, 2⟩, ⟨2, 12⟩, ⟨2, 22⟩} : Finset Point),
   ({⟨12, 2⟩, ⟨12, 12⟩, ⟨12, 22⟩} : Finset Point)]

lemma Img.eq_parts {a b : Img} (h1 : a.rows = b.rows) (h2 : a.cols = b.cols)
    (h3 : a.val = b.val) : a = b := by
  cases a; cases b; simp_all

lemma mem_allPointsF {img : Img} {p : Point} :
    p ∈ allPointsF img ↔ p.row < img.rows ∧ p.col < img.cols := by
  unfold allPointsF
  simp only [Finset.mem_image, Finset.mem_product, Finset.mem_range, Prod.exists]
  constructor
  · rintro ⟨a, b, ⟨ha, hb⟩, rfl⟩; exact ⟨ha, hb⟩
  · intro ⟨h1, h2⟩; exact ⟨p.row, p.col, ⟨h1, h2⟩, rfl⟩

lemma card_allPointsF (img : Img) : (allPointsF img).card = img.rows * img.cols := by
  unfold allPointsF
  rw [Finset.card_image_of_injective, Finset.card_product, Finset.card_range,
    Finset.card_range]
  intro a b h
  have h1 : a.1 = b.1 := congrArg Point.row h
  have h2 : a.2 = b.2 := congrArg Point.col h
  exact Prod.ext h1 h2

lemma mem_allCoordsL {img : Img} {p : Point} :
    p ∈ allCoordsL img ↔ p.row < img.rows ∧ p.col < img.cols := by
  unfold allCoordsL
  simp only [List.mem_flatMap, List.mem_map, List.mem_range]
  constructor
  · rintro ⟨a, ha, b, hb, rfl⟩; exact ⟨ha, hb⟩
  · intro ⟨h1, h2⟩; exact ⟨p.row, h1, p.col, h2, rfl⟩

lemma repaint_val (img : Img) (s : Finset Point) (v : Nat) (q : Point) :
    (repaint img s v).val q = if q ∈ s then v else img.val q := rfl

lemma repaint_empty (img : Img) (v : Nat) : repaint img ∅ v = img :=
  Img.eq_parts rfl rfl (funext fun q => by simp [repaint])

lemma inB_repaint (img : Img) (s : Finset Point) (v : Nat) (p : Point) :
    inB (repaint img s v) p ↔ inB img p := Iff.rfl

lemma unionF_nil : unionF [] = ∅ := rfl

lemma unionF_cons (s : Finset Point) (l : List (Finset Point)) :
    unionF (s :: l) = s ∪ unionF l := rfl

lemma unionF_append (l₁ l₂ : List (Finset Point)) :
    unionF (l₁ ++ l₂) = unionF l₁ ∪ unionF l₂ := by
  induction l₁ with
  | nil => simp [unionF_nil, unionF]
  | cons s l ih => simp only [List.cons_append, unionF_cons, ih, Finset.union_assoc]

lemma mem_unionF {q : Point} {l : List (Finset Point)} :
    q ∈ unionF l ↔ ∃ s ∈ l, q ∈ s := by
  induction l with
  | nil => simp [unionF_nil]
  | cons s l ih => simp [unionF_cons, ih]

lemma iterate_extensive {α : Type} (F : Finset α → Finset α) (hext : ∀ t, t ⊆ F t)
    (s : Finset α) (n : Nat) : s ⊆ F^[n] s := by
  induction n with
  | zero => simp
  | succ n ih =>
    rw [Function.iterate_succ_apply']
    exact ih.trans (hext _)

lemma iterate_mono_step {α : Type} (F : Finset α → Finset α) (hext : ∀ t, t ⊆ F t)
    (s : Finset α) (n : Nat) : F^[n] s ⊆ F^[n + 1] s := by
  rw [Function.iterate_succ_apply']
  exact hext _

lemma iterate_bounded {α : Type} (F : Finset α → Finset α) (P : Finset α)
    (hP : ∀ t, t ⊆ P → F t ⊆ P) (s : Finset α) (h0 : s ⊆ P) (n : Nat) :
    F^[n] s ⊆ P := by
  induction n with
  | zero => simpa using h0
  | succ n ih =>
    rw [Function.iterate_succ_apply']
    exact hP _ ih

lemma iterate_stab_propagate {α : Type} (F : Finset α → Finset α) (s : Finset α)
    (i : Nat) (h : F^[i + 1] s = F^[i] s) :
    ∀ j, i ≤ j → F^[j] s = F^[i] s := by
  intro j hj
  induction j with
  | zero =>
    have : i = 0 := Nat.le_zero.mp hj
    rw [this]
  | succ j ih =>
    by_cases hij : i ≤ j
    · rw [Function.iterate_succ_apply', ih hij]
      calc F (F^[i] s) = F^[i + 1] s := (Function.iterate_succ_apply' F i s).symm
        _ = F^[i] s := h
    · have : i = j + 1 := by omega
      rw [this]

lemma exists_stab {α : Type} [DecidableEq α] (F : Finset α → Finset α) (P : Finset α)
    (hext : ∀ t, t ⊆ F t) (hP : ∀ t, t ⊆ P → F t ⊆ P)
    (s : Finset α) (h0 : s ⊆ P) (hne : s.Nonempty) :
    ∃ i < P.card, F^[i + 1] s = F^[i] s := by
  by_contra hcon
  push_neg at hcon
  have hgrow : ∀ i, i ≤ P.card → i + 1 ≤ (F^[i] s).card := by
    intro i
    induction i with
    | zero =>
      intro _
      simpa [Finset.card_pos] using hne
    | succ i ih =>
      intro hi
      have h1 : i + 1 ≤ (F^[i] s).card := ih (by omega)
      have hss : F^[i] s ⊂ F^[i + 1] s := by
        refine ⟨iterate_mono_step F hext s i, fun hsub => ?_⟩
        exact hcon i (by omega) (Finset.Subset.antisymm hsub (iterate_mono_step F hext s i))
      have := Finset.card_lt_card hss
      omega
  have hbig : P.card + 1 ≤ (F^[P.card] s).card := hgrow P.card le_rfl
  have hsmall : (F^[P.card] s).card ≤ P.card :=
    Finset.card_le_card (iterate_bounded F P hP s h0 P.card)
  omega

lemma iterate_fix {α : Type} [DecidableEq α] (F : Finset α → Finset α) (P : Finset α)
    (hext : ∀ t, t ⊆ F t) (hP : ∀ t, t ⊆ P → F t ⊆ P)
    (s : Finset α) (h0 : s ⊆ P) (hne : s.Nonempty) (n : Nat) (hn : P.card ≤ n) :
    F (F^[n] s) = F^[n] s := by
  obtain ⟨i, hi, hfix⟩ := exists_stab F P hext hP s h0 hne
  have h1 : F^[n] s = F^[i] s := iterate_stab_propagate F s i hfix n (by omega)
  have h2 : F^[n + 1] s = F^[i] s := iterate_stab_propagate F s i hfix (n + 1) (by omega)
  calc F (F^[n] s) = F^[n + 1] s := (Function.iterate_succ_apply' F n s).symm
    _ = F^[i] s := h2
    _ = F^[n] s := h1.symm

lemma floodSet_fix {img : Img} {p : Point} (hp : inB img p) :
    floodStep img (img.val p) (floodSet img p) = floodSet img p := by
  unfold floodSet
  apply iterate_fix (P := allPointsF img)
  · intro t
    exact Finset.subset_union_left
  · intro t ht
    exact Finset.union_subset ht (Finset.filter_subset _ _)
  · simpa [Finset.singleton_subset_iff, mem_allPointsF] using hp
  · exact ⟨p, Finset.mem_singleton_self p⟩
  · exact le_of_eq (card_allPointsF img)

lemma mem_floodSet_self (img : Img) (p : Point) : p ∈ floodSet img p := by
  unfold floodSet
  have hext : ∀ t, t ⊆ floodStep img (img.val p) t := fun t => Finset.subset_union_left
  exact iterate_extensive _ hext {p} _ (Finset.mem_singleton_self p)

lemma floodSet_subset_reach {img : Img} {p q : Point} (hq : q ∈ floodSet img p) :
    Reaches img p q := by
  unfold floodSet at hq
  revert q
  generalize img.rows * img.cols = n
  induction n with
  | zero =>
    intro q hq
    simp only [Function.iterate_zero_apply, Finset.mem_singleton] at hq
    rw [hq]
    exact Relation.ReflTransGen.refl
  | succ n ih =>
    intro q hq
    rw [Function.iterate_succ_apply'] at hq
    rcases Finset.mem_union.mp hq with h | h
    · exact ih h
    · obtain ⟨hmem, hval, r, hr, hadj⟩ := Finset.mem_filter.mp h
      exact (ih hr).tail ⟨hadj, mem_allPointsF.mp hmem, hval⟩

lemma floodSet_color {img : Img} {p q : Point} (hq : q ∈ floodSet img p) :
    q = p ∨ (inB img q ∧ img.val q = img.val p) := by
  rcases (floodSet_subset_reach hq).cases_tail with h | ⟨c, _, hstep⟩
  · exact Or.inl h
  · exact Or.inr ⟨hstep.2.1, hstep.2.2⟩

lemma reach_subset_floodSet {img : Img} {p q : Point} (hp : inB img p)
    (h : Reaches img p q) : q ∈ floodSet img p := by
  induction h with
  | refl => exact mem_floodSet_self img p
  | tail hab hbc ih =>
    rw [← floodSet_fix hp]
    refine Finset.mem_union_right _ (Finset.mem_filter.mpr ?_)
    exact ⟨mem_allPointsF.mpr hbc.2.1, hbc.2.2, _, ih, hbc.1⟩

lemma mem_floodSet_iff {img : Img} {p q : Point} (hp : inB img p) :
    q ∈ floodSet img p ↔ Reaches img p q :=
  ⟨floodSet_subset_reach, reach_subset_floodSet hp⟩

lemma floodSet_repaint {img : Img} {p : Point} {c : Nat} (hp : inB img p)
    (hc : ∀ q, img.val q ≠ c) :
    floodSet (repaint img (floodSet img p) c) p = floodSet img p := by
  have hp1 : inB (repaint img (floodSet img p) c) p := hp
  have hval1 : (repaint img (floodSet img p) c).val p = c := by
    rw [repaint_val, if_pos (mem_floodSet_self img p)]
  apply Finset.Subset.antisymm
  · intro q hq
    rcases floodSet_color hq with h | ⟨_, hv⟩
    · rw [h]
      exact mem_floodSet_self img p
    · rw [hval1] at hv
      by_contra hqS
      rw [repaint_val, if_neg hqS] at hv
      exact hc q hv
  · intro q hq
    have hr : Reaches img p q := (mem_floodSet_iff hp).mp hq
    have key : ∀ x, Reaches img p x → Reaches (repaint img (floodSet img p) c) p x := by
      intro x hx
      induction hx with
      | refl => exact Relation.ReflTransGen.refl
      | tail hab hbc ih =>
        rename_i b x'
        have hxS : x' ∈ floodSet img p := reach_subset_floodSet hp (hab.tail hbc)
        refine ih.tail ⟨hbc.1, hbc.2.1, ?_⟩
        rw [hval1, repaint_val, if_pos hxS]
    exact reach_subset_floodSet hp1 (key q hr)

lemma MID_ne_tgt {tgt : Nat} (htgt : tgt = BLACK ∨ tgt = WHITE) : MID_GRAY ≠ tgt := by
  rcases htgt with rfl | rfl <;> decide

lemma DARK_ne_BW {x : Nat} (hx : x = BLACK ∨ x = WHITE) : x ≠ DARK_GRAY := by
  rcases hx with rfl | rfl <;> decide

lemma scan_master (B : Img) (tgt : Nat)
    (hB : ∀ q, B.val q = BLACK ∨ B.val q = WHITE)
    (htgt : tgt = BLACK ∨ tgt = WHITE) :
    ∀ L : List Point, (∀ p ∈ L, inB B p) →
    ∀ comps : List (Finset Point),
      (∀ S ∈ comps, ∀ q ∈ S, inB B q ∧ B.val q = tgt) →
      comps.Pairwise (fun s t => Disjoint s t) →
      ∃ ext : List (Finset Point),
        (∀ S ∈ comps ++ ext, ∀ q ∈ S, inB B q ∧ B.val q = tgt) ∧
        (comps ++ ext).Pairwise (fun s t => Disjoint s t) ∧
        (∀ p ∈ L, B.val p = tgt → p ∈ unionF (comps ++ ext)) ∧
        ∀ ap : Bool,
          L.foldl (scanStep tgt ap)
              (repaint B (unionF comps) MID_GRAY, comps.map (reprArea ap))
            = (repaint B (unionF (comps ++ ext)) MID_GRAY,
               (comps ++ ext).map (reprArea ap)) := by
  intro L
  induction L with
  | nil =>
    intro _ comps hcomp hpair
    refine ⟨[], ?_, ?_, ?_, ?_⟩
    · simpa using hcomp
    · simpa using hpair
    · intro q hq
      exact absurd hq (List.not_mem_nil q)
    · intro ap
      simp
  | cons p L ih =>
    intro hL comps hcomp hpair
    have hpL : inB B p := hL p (List.mem_cons_self p L)
    have hL' : ∀ q ∈ L, inB B q := fun q hq => hL q (List.mem_cons_of_mem p hq)
    by_cases hcase : (repaint B (unionF comps) MID_GRAY).val p = tgt
    · -- the scan finds a target pixel: one new component is recorded
      have hpu : p ∉ unionF comps := by
        intro hmem
        apply MID_ne_tgt htgt
        have h := hcase
        rw [repaint_val, if_pos hmem] at h
        exact h
      have hpB : B.val p = tgt := by
        have h := hcase
        rw [repaint_val, if_neg hpu] at h
        exact h
      have hSmem : ∀ q ∈ floodSet (repaint B (unionF comps) MID_GRAY) p,
          inB B q ∧ (repaint B (unionF comps) MID_GRAY).val q = tgt := by
        intro q hq
        rcases floodSet_color hq with rfl | ⟨hin, hv⟩
        · exact ⟨hpL, hcase⟩
        · exact ⟨hin, hv.trans hcase⟩
      have hSout : ∀ q ∈ floodSet (repaint B (unionF comps) MID_GRAY) p,
          q ∉ unionF comps ∧ B.val q = tgt := by
        intro q hq
        have hv := (hSmem q hq).2
        have hqu : q ∉ unionF comps := by
          intro hmem
          apply MID_ne_tgt htgt
          rw [repaint_val, if_pos hmem] at hv
          exact hv
        rw [repaint_val, if_neg hqu] at hv
        exact ⟨hqu, hv⟩
      have hnodark : ∀ q, (repaint B (unionF comps) MID_GRAY).val q ≠ DARK_GRAY := by
        intro q
        rw [repaint_val]
        by_cases hq : q ∈ unionF comps
        · rw [if_pos hq]; decide
        · rw [if_neg hq]; exact DARK_ne_BW (hB q)
      have hgray : grayPixels (repaint (repaint B (unionF comps) MID_GRAY)
            (floodSet (repaint B (unionF comps) MID_GRAY) p) DARK_GRAY) DARK_GRAY
          = floodSet (repaint B (unionF comps) MID_GRAY) p := by
        apply Finset.ext
        intro q
        simp only [grayPixels, Finset.mem_filter]
        constructor
        · rintro ⟨_, hv⟩
          by_contra hqS
          rw [repaint_val, if_neg hqS] at hv
          exact hnodark q hv
        · intro hqS
          refine ⟨mem_allPointsF.mpr (hSmem q hqS).1, ?_⟩
          rw [repaint_val, if_pos hqS]
      have hsecond : floodSet (repaint (repaint B (unionF comps) MID_GRAY)
            (floodSet (repaint B (unionF comps) MID_GRAY) p) DARK_GRAY) p
          = floodSet (repaint B (unionF comps) MID_GRAY) p :=
        floodSet_repaint hpL hnodark
      have himg2 : repaint (repaint (repaint B (unionF comps) MID_GRAY)
              (floodSet (repaint B (unionF comps) MID_GRAY) p) DARK_GRAY)
            (floodSet (repaint B (unionF comps) MID_GRAY) p) MID_GRAY
          = repaint B
              (unionF (comps ++ [floodSet (repaint B (unionF comps) MID_GRAY) p]))
              MID_GRAY := by
        refine Img.eq_parts rfl rfl ?_
        funext q
        simp only [repaint_val, unionF_append, unionF_cons, unionF_nil,
          Finset.union_empty, Finset.mem_union]
        by_cases hqS : q ∈ floodSet (repaint B (unionF comps) MID_GRAY) p <;>
          by_cases hqu : q ∈ unionF comps <;> simp [hqS, hqu]
      have hcomp' : ∀ S ∈ comps ++ [floodSet (repaint B (unionF comps) MID_GRAY) p],
          ∀ q ∈ S, inB B q ∧ B.val q = tgt := by
        intro S hS
        rcases List.mem_append.mp hS with hS | hS
        · exact hcomp S hS
        · rw [List.mem_singleton.mp hS]
          intro q hq
          exact ⟨(hSmem q hq).1, (hSout q hq).2⟩
      have hpair' : (comps ++ [floodSet (repaint B (unionF comps) MID_GRAY) p]).Pairwise
          (fun s t => Disjoint s t) := by
        rw [List.pairwise_append]
        refine ⟨hpair, List.pairwise_singleton _ _, ?_⟩
        intro a ha b hb
        rw [List.mem_singleton.mp hb, Finset.disjoint_right]
        intro x hxS hxa
        exact (hSout x hxS).1 (mem_unionF.mpr ⟨a, ha, hxa⟩)
      obtain ⟨ext, h1, h2, h3, h4⟩ :=
        ih hL' (comps ++ [floodSet (repaint B (unionF comps) MID_GRAY) p]) hcomp' hpair'
      have hassoc : comps ++ (floodSet (repaint B (unionF comps) MID_GRAY) p :: ext)
          = (comps ++ [floodSet (repaint B (unionF comps) MID_GRAY) p]) ++ ext := by
        rw [List.append_assoc, List.singleton_append]
      refine ⟨floodSet (repaint B (unionF comps) MID_GRAY) p :: ext, ?_, ?_, ?_, ?_⟩
      · rw [hassoc]; exact h1
      · rw [hassoc]; exact h2
      · intro q hq hqt
        rcases List.mem_cons.mp hq with rfl | hq'
        · exact mem_unionF.mpr ⟨floodSet (repaint B (unionF comps) MID_GRAY) q,
            by simp, mem_floodSet_self _ q⟩
        · rw [hassoc]; exact h3 q hq' hqt
      · intro ap
        rw [List.foldl_cons]
        have hstep : scanStep tgt ap
            (repaint B (unionF comps) MID_GRAY, comps.map (reprArea ap)) p
            = (repaint B
                (unionF (comps ++ [floodSet (repaint B (unionF comps) MID_GRAY) p]))
                MID_GRAY,
              (comps ++ [floodSet (repaint B (unionF comps) MID_GRAY) p]).map
                (reprArea ap)) := by
          simp only [scanStep, floodFill]
          rw [if_pos hcase]
          rw [hsecond, hgray, himg2, List.map_append]
          simp [reprArea]
        rw [hstep, hassoc]
        exact h4 ap
    · -- non-target pixel: nothing happens at this scan position
      obtain ⟨ext, h1, h2, h3, h4⟩ := ih hL' comps hcomp hpair
      refine ⟨ext, h1, h2, ?_, ?_⟩
      · intro q hq hqt
        rcases List.mem_cons.mp hq with rfl | hq'
        · have hqu : q ∈ unionF comps := by
            by_contra hqu
            apply hcase
            rw [repaint_val, if_neg hqu]
            exact hqt
          rw [unionF_append]
          exact Finset.mem_union_left _ hqu
        · exact h3 q hq' hqt
      · intro ap
        rw [List.foldl_cons]
        have hskip : scanStep tgt ap
            (repaint B (unionF comps) MID_GRAY, comps.map (reprArea ap)) p
            = (repaint B (unionF comps) MID_GRAY, comps.map (reprArea ap)) := by
          simp only [scanStep]
          rw [if_neg hcase]
        rw [hskip]
        exact h4 ap

lemma threshImg_values (img : Img) (cutoff : Nat) (q : Point) :
    (threshImg img cutoff).val q = BLACK ∨ (threshImg img cutoff).val q = WHITE := by
  simp only [threshImg]
  by_cases h : cutoff < img.val q
  · rw [if_pos h]; exact Or.inr rfl
  · rw [if_neg h]; exact Or.inl rfl

lemma padBorder_thresh_values (img : Img) (cutoff : Nat) (q : Point) :
    (padBorder (threshImg img cutoff) WHITE).val q = BLACK ∨
    (padBorder (threshImg img cutoff) WHITE).val q = WHITE := by
  simp only [padBorder]
  by_cases h : q.row = 0 ∨ q.row = (threshImg img cutoff).rows + 1 ∨ q.col = 0 ∨
      q.col = (threshImg img cutoff).cols + 1
  · rw [if_pos h]; exact Or.inr rfl
  · rw [if_neg h]; exact threshImg_values img cutoff _

lemma baseImg_values (img : Img) (cutoff : Nat) (fb : Bool) (q : Point) :
    (baseImg img cutoff fb).val q = BLACK ∨ (baseImg img cutoff fb).val q = WHITE := by
  cases fb
  · simpa [baseImg] using threshImg_values img cutoff q
  · simp only [baseImg, floodFill, if_true]
    rw [repaint_val]
    by_cases h : q ∈ floodSet (padBorder (threshImg img cutoff) WHITE) ⟨0, 0⟩
    · rw [if_pos h]; exact Or.inl rfl
    · rw [if_neg h]; exact padBorder_thresh_values img cutoff q

/-- Claim C6: for every input grid and option combination, `find_areas`
partitions the target-color pixels of the (possibly border-cleared)
thresholded grid: there is one list of components whose point sets the
`all_points` output returns, whose bounding rects the default output
returns, whose union is exactly the set of target-color pixels of the
working image, and which are pairwise disjoint. -/
theorem find_areas_partition (img : Img) (threshold : Nat)
    (fill_border find_black : Bool) :
    ∃ comps : List (Finset Point),
      find_areas img threshold fill_border find_black true = comps.map Area.points ∧
      find_areas img threshold fill_border find_black false
        = comps.map (fun s => Area.rect (boundingRect s)) ∧
      unionF comps = targetPixels (baseImg img threshold fill_border)
        (if find_black then BLACK else WHITE) ∧
      comps.Pairwise (fun s t => Disjoint s t) := by
  obtain ⟨ext, h1, h2, h3, h4⟩ := scan_master (baseImg img threshold fill_border)
    (if find_black then BLACK else WHITE)
    (baseImg_values img threshold fill_border)
    (by cases find_black <;> simp)
    (allCoordsL (baseImg img threshold fill_border))
    (fun p hp => mem_allCoordsL.mp hp)
    [] (by simp) List.Pairwise.nil
  have h4t := h4 true
  have h4f := h4 false
  rw [unionF_nil, repaint_empty] at h4t h4f
  simp only [List.nil_append, List.map_nil] at h4t h4f h1 h2 h3
  refine ⟨ext, ?_, ?_, ?_, ?_⟩
  · simp only [find_areas]
    rw [h4t]
    simp [reprArea]
  · simp only [find_areas]
    rw [h4f]
    simp [reprArea]
  · apply Finset.ext
    intro q
    simp only [targetPixels, Finset.mem_filter]
    constructor
    · intro hq
      obtain ⟨S, hS, hqS⟩ := mem_unionF.mp hq
      have hprop := h1 S hS q hqS
      exact ⟨mem_allPointsF.mpr hprop.1, hprop.2⟩
    · rintro ⟨hmem, hval⟩
      exact h3 q (mem_allCoordsL.mpr (mem_allPointsF.mp hmem)) hval
  · exact h2

lemma set_getD_self {l : List Img} {n : Nat} {x : Img} (h : n < l.length) :
    (l.set n x).getD n default = x := by
  rw [List.getD_eq_getElem?_getD, List.getElem?_set_self h]
  rfl

lemma set_getD_eq_self {l : List Img} {n : Nat} (h : n < l.length) :
    l.set n (l.getD n default) = l := by
  apply List.ext_getElem?
  intro m
  rw [List.getElem?_set]
  by_cases hm : n = m
  · subst hm
    rw [if_pos rfl, if_pos h, List.getD_eq_getElem?_getD, List.getElem?_eq_getElem h]
    rfl
  · rw [if_neg hm]

lemma foldl_store (ref tgt : Nat) (ap : Bool) (L : List Point) :
    ∀ (store : List Img) (as : List Area), ref < store.length →
      L.foldl (scanStepStore ref tgt ap) (store, as)
        = (store.set ref (L.foldl (scanStep tgt ap) (store.getD ref default, as)).1,
           (L.foldl (scanStep tgt ap) (store.getD ref default, as)).2) := by
  induction L with
  | nil =>
    intro store as href
    simp only [List.foldl_nil]
    rw [set_getD_eq_self href]
  | cons p L ihL =>
    intro store as href
    rw [List.foldl_cons, List.foldl_cons]
    simp only [scanStepStore]
    rw [ihL (store.set ref (scanStep tgt ap (store.getD ref default, as) p).1)
        (scanStep tgt ap (store.getD ref default, as) p).2
        (by simpa using href)]
    rw [set_getD_self (by simpa using href), List.set_set]

lemma append_one_getD (l : List Img) (x : Img) : (l ++ [x]).getD l.length default = x := by
  rw [List.getD_eq_getElem?_getD, List.getElem?_concat_length]
  rfl

/-- Claim C8: `find_areas` never mutates the caller's source grid.  At the
store level, every flood-fill and sentinel write goes to the freshly
allocated working buffer (the threshold output, or the padded copy when
`fill_border` is set), so every buffer of the original store — in
particular the source buffer — is unchanged, and the returned areas agree
with the pure `find_areas` of the source image. -/
theorem find_areas_store_frame (store : List Img) (src i threshold : Nat)
    (fill_border find_black all_points : Bool)
    (hsrc : src < store.length) (hi : i < store.length) :
    (find_areas_store store src threshold fill_border find_black all_points).1[i]?
      = store[i]? ∧
    (find_areas_store store src threshold fill_border find_black all_points).2
      = find_areas (store.getD src default) threshold fill_border find_black
          all_points := by
  cases fill_border
  · simp only [find_areas_store, Bool.false_eq_true, if_false]
    rw [append_one_getD store (threshImg (store.getD src default) threshold)]
    rw [foldl_store _ _ _ _ _ _ (by simp)]
    rw [append_one_getD store (threshImg (store.getD src default) threshold)]
    constructor
    · rw [List.getElem?_set, if_neg (by omega), List.getElem?_append_left hi]
    · simp only [find_areas, baseImg, Bool.false_eq_true, if_false]
  · simp only [find_areas_store, if_true]
    rw [set_getD_self (by simp)]
    rw [foldl_store _ _ _ _ _ _ (by simp)]
    rw [set_getD_self (by simp)]
    constructor
    · rw [List.getElem?_set, if_neg (by simp; omega), List.getElem?_set,
        if_neg (by simp; omega), List.getElem?_append_left (by simp; omega),
        List.getElem?_append_left hi]
    · simp only [find_areas, baseImg, if_true]

lemma insertKey_perm (le : Rect → Rect → Bool) (a : Rect) (l : List Rect) :
    (insertKey le a l).Perm (a :: l) := by
  induction l with
  | nil => exact List.Perm.refl _
  | cons b l ih =>
    simp only [insertKey]
    by_cases h : le b a
    · rw [if_pos h]
      exact (ih.cons b).trans (List.Perm.swap a b l)
    · rw [if_neg h]

lemma stableSortLoop_perm (le : Rect → Rect → Bool) :
    ∀ (l acc : List Rect), (stableSortLoop le acc l).Perm (acc ++ l) := by
  intro l
  induction l with
  | nil =>
    intro acc
    simp [stableSortLoop]
  | cons a l ih =>
    intro acc
    simp only [stableSortLoop]
    refine (ih (insertKey le a acc)).trans ?_
    refine ((insertKey_perm le a acc).append_right l).trans ?_
    exact List.perm_middle.symm

lemma stableSort_perm (le : Rect → Rect → Bool) (l : List Rect) :
    (stableSort le l).Perm l := by
  simpa [stableSort] using stableSortLoop_perm le l []

lemma mem_insertKey (le : Rect → Rect → Bool) (a x : Rect) (l : List Rect) :
    x ∈ insertKey le a l ↔ x = a ∨ x ∈ l := by
  rw [(insertKey_perm le a l).mem_iff, List.mem_cons]

lemma insertKey_sorted (le : Rect → Rect → Bool)
    (htot : ∀ a b, (le a b || le b a) = true)
    (htrans : ∀ a b c, le a b = true → le b c = true → le a c = true)
    (a : Rect) (l : List Rect) (hl : l.Pairwise (fun x y => le x y = true)) :
    (insertKey le a l).Pairwise (fun x y => le x y = true) := by
  induction l with
  | nil => simp [insertKey]
  | cons b l ih =>
    simp only [insertKey]
    obtain ⟨hb, hl'⟩ := List.pairwise_cons.mp hl
    by_cases h : le b a
    · rw [if_pos h]
      refine List.pairwise_cons.mpr ⟨?_, ih hl'⟩
      intro y hy
      rcases (mem_insertKey le a y l).mp hy with rfl | hy'
      · exact h
      · exact hb y hy'
    · rw [if_neg h]
      have hab : le a b = true := by
        have htot' := htot a b
        rw [Bool.or_eq_true] at htot'
        rcases htot' with h1 | h2
        · exact h1
        · exact absurd h2 h
      refine List.pairwise_cons.mpr ⟨?_, hl⟩
      intro y hy
      rcases List.mem_cons.mp hy with rfl | hy'
      · exact hab
      · exact htrans a b y hab (hb y hy')

lemma stableSortLoop_sorted (le : Rect → Rect → Bool)
    (htot : ∀ a b, (le a b || le b a) = true)
    (htrans : ∀ a b c, le a b = true → le b c = true → le a c = true) :
    ∀ (l acc : List Rect), acc.Pairwise (fun x y => le x y = true) →
      (stableSortLoop le acc l).Pairwise (fun x y => le x y = true) := by
  intro l
  induction l with
  | nil =>
    intro acc hacc
    exact hacc
  | cons a l ih =>
    intro acc hacc
    exact ih _ (insertKey_sorted le htot htrans a acc hacc)

lemma stableSort_sorted (le : Rect → Rect → Bool)
    (htot : ∀ a b, (le a b || le b a) = true)
    (htrans : ∀ a b c, le a b = true → le b c = true → le a c = true)
    (l : List Rect) : (stableSort le l).Pairwise (fun x y => le x y = true) :=
  stableSortLoop_sorted le htot htrans l [] List.Pairwise.nil

lemma keyLeB_total (x y : Nat × Nat) : (keyLeB x y || keyLeB y x) = true := by
  simp only [keyLeB, Bool.or_eq_true, decide_eq_true_eq]
  omega

lemma keyLeB_trans (x y z : Nat × Nat) (h1 : keyLeB x y = true)
    (h2 : keyLeB y z = true) : keyLeB x z = true := by
  simp only [keyLeB, decide_eq_true_eq] at h1 h2 ⊢
  omega

/-- Claim C7 counterexample: a non-empty cell list (two cells, both with
top row 5, whose centers lie in the single region) with gridHeight 2 is
not sorted at all: `locate_cells` raises `ZeroDivisionError` because
`rowSeparation = (5 - 5) // 1 = 0`. -/
theorem locate_cells_jitter_counterexample :
    locate_cells [({⟨7, 2⟩, ⟨7, 11⟩} : Finset Point)] [⟨5, 0, 4, 4⟩, ⟨5, 9, 4, 4⟩] 2
      = Except.error PyError.zeroDivisionError := by decide

/-- Claim C7 (amended): for a non-empty cell list and gridHeight > 1,
provided the computed `rowSeparation` is nonzero, the sorting phase of
`locate_cells` succeeds and returns a permutation of the cells ordered by
the lexicographic key `((row - minRow + rowSeparation/2) / rowSeparation,
col)`; for gridHeight <= 1 the cells are left in their original scan
order (when `rowSeparation` is zero it raises `ZeroDivisionError`
instead). -/
theorem sortCells_sorts (cells : List Rect) (height : Nat) :
    (∀ c cs, cells = c :: cs → 1 < height → rowSep c cs height ≠ 0 →
      ∃ sorted, sortCells cells height = Except.ok sorted ∧
        sorted.Perm cells ∧
        sorted.Pairwise (fun a b =>
          keyLeB (bucketKey (minRowOfL c cs) (rowSep c cs height) a)
            (bucketKey (minRowOfL c cs) (rowSep c cs height) b) = true)) ∧
    (height ≤ 1 → sortCells cells height = Except.ok cells) := by
  constructor
  · rintro c cs rfl hh hrs
    refine ⟨stableSort (fun a b =>
        keyLeB (bucketKey (minRowOfL c cs) (rowSep c cs height) a)
          (bucketKey (minRowOfL c cs) (rowSep c cs height) b)) (c :: cs), ?_, ?_, ?_⟩
    · simp only [sortCells, if_pos hh]
      rw [if_neg hrs]
    · exact stableSort_perm _ _
    · exact stableSort_sorted
        (fun a b => keyLeB (bucketKey (minRowOfL c cs) (rowSep c cs height) a)
          (bucketKey (minRowOfL c cs) (rowSep c cs height) b))
        (fun a b => keyLeB_total _ _)
        (fun a b x h1 h2 => keyLeB_trans _ _ _ h1 h2) (c :: cs)
  · intro hle
    simp only [sortCells]
    rw [if_neg (by omega)]

/-- Witness for the amended C7 at a concrete jittered two-cell list. -/
theorem sortCells_sorts_witness :
    ∃ sorted, sortCells [⟨10, 0, 4, 4⟩, ⟨0, 0, 4, 4⟩] 2 = Except.ok sorted ∧
      sorted.Perm [⟨10, 0, 4, 4⟩, ⟨0, 0, 4, 4⟩] ∧
      sorted.Pairwise (fun a b =>
        keyLeB
          (bucketKey (minRowOfL ⟨10, 0, 4, 4⟩ [⟨0, 0, 4, 4⟩])
            (rowSep ⟨10, 0, 4, 4⟩ [⟨0, 0, 4, 4⟩] 2) a)
          (bucketKey (minRowOfL ⟨10, 0, 4, 4⟩ [⟨0, 0, 4, 4⟩])
            (rowSep ⟨10, 0, 4, 4⟩ [⟨0, 0, 4, 4⟩] 2) b) = true) :=
  (sortCells_sorts [⟨10, 0, 4, 4⟩, ⟨0, 0, 4, 4⟩] 2).1 ⟨10, 0, 4, 4⟩ [⟨0, 0, 4, 4⟩]
    rfl (by decide) (by decide)

lemma foldl_min_const (r : Nat) :
    ∀ cs : List Rect, (∀ s ∈ cs, s.row = r) →
      cs.foldl (fun m s => min m s.row) r = r := by
  intro cs
  induction cs with
  | nil => intro _; rfl
  | cons s cs ih =>
    intro h
    simp only [List.foldl_cons]
    rw [h s (List.mem_cons_self s cs), min_self]
    exact ih fun x hx => h x (List.mem_cons_of_mem s hx)

lemma foldl_max_const (r : Nat) :
    ∀ cs : List Rect, (∀ s ∈ cs, s.row = r) →
      cs.foldl (fun m s => max m s.row) r = r := by
  intro cs
  induction cs with
  | nil => intro _; rfl
  | cons s cs ih =>
    intro h
    simp only [List.foldl_cons]
    rw [h s (List.mem_cons_self s cs), max_self]
    exact ih fun x hx => h x (List.mem_cons_of_mem s hx)

/-- Claim C10: for gridHeight > 1 and a non-empty cell list in which
every cell has the same top row, `maxRow - minRow` is 0, so
`rowSeparation` is 0 and the sort-key computation raises
`ZeroDivisionError` — the guard only skips the sort when gridHeight <= 1. -/
theorem locate_cells_same_row_zero_division (regions : List (Finset Point))
    (c : Rect) (cs : List Rect) (height : Nat)
    (hh : 1 < height) (hrow : ∀ s ∈ cs, s.row = c.row) :
    locate_cells regions (c :: cs) height = Except.error PyError.zeroDivisionError := by
  have hmin : minRowOfL c cs = c.row := foldl_min_const c.row cs hrow
  have hmax : maxRowOfL c cs = c.row := foldl_max_const c.row cs hrow
  have hrs : rowSep c cs height = 0 := by
    unfold rowSep
    rw [hmin, hmax, Nat.sub_self, Nat.zero_div]
  have hsort : sortCells (c :: cs) height = Except.error PyError.zeroDivisionError := by
    simp only [sortCells, if_pos hh]
    rw [if_pos hrs]
  simp only [locate_cells, hsort]

/-- Witness for C10: two cells with top row 3 and gridHeight 2. -/
theorem locate_cells_same_row_zero_division_witness :
    locate_cells [] [⟨3, 1, 2, 2⟩, ⟨3, 5, 2, 2⟩] 2
      = Except.error PyError.zeroDivisionError :=
  locate_cells_same_row_zero_division [] ⟨3, 1, 2, 2⟩ [⟨3, 5, 2, 2⟩] 2
    (by decide) (by decide)

lemma firstRegion_none_iff (regions : List (Finset Point)) (p : Point) :
    firstRegion regions p = none ↔ ∀ r ∈ regions, p ∉ r := by
  induction regions with
  | nil => simp [firstRegion]
  | cons r rest ih =>
    simp only [firstRegion]
    by_cases h : p ∈ r
    · rw [if_pos h]
      simp [h]
    · rw [if_neg h]
      rw [Option.map_eq_none', ih]
      simp [h]

lemma firstRegion_some (regions : List (Finset Point)) (p : Point) :
    ∀ j, firstRegion regions p = some j →
      j < regions.length ∧ p ∈ regions.getD j ∅ ∧ ∀ k, k < j → p ∉ regions.getD k ∅ := by
  induction regions with
  | nil =>
    intro j h
    simp [firstRegion] at h
  | cons r rest ih =>
    intro j h
    simp only [firstRegion] at h
    by_cases hp : p ∈ r
    · rw [if_pos hp] at h
      injection h with h
      refine ⟨by simp [← h], by simpa [← h] using hp, ?_⟩
      intro k hk
      omega
    · rw [if_neg hp] at h
      obtain ⟨j', hj', rfl⟩ := Option.map_eq_some'.mp h
      obtain ⟨hlt, hmem, hnone⟩ := ih j' hj'
      refine ⟨by simp; omega, by simpa using hmem, ?_⟩
      intro k hk
      cases k with
      | zero => simpa using hp
      | succ k => simpa using hnone k (by omega)

lemma assignAll_ok (regions : List (Finset Point)) :
    ∀ cells : List Rect,
      (∀ c ∈ cells, firstRegion regions c.center ≠ none) →
        assignAll regions cells
          = Except.ok (cells.map fun c => (firstRegion regions c.center).getD 0) := by
  intro cells
  induction cells with
  | nil => intro _; rfl
  | cons c cs ih =>
    intro hc
    simp only [assignAll]
    cases hfc : firstRegion regions c.center with
    | none => exact absurd hfc (hc c (List.mem_cons_self c cs))
    | some j =>
      rw [ih fun x hx => hc x (List.mem_cons_of_mem c hx)]
      simp [hfc, Except.map]

lemma assignAll_error (regions : List (Finset Point)) :
    ∀ cells : List Rect,
      (∃ c ∈ cells, firstRegion regions c.center = none) →
        ∃ c ∈ cells, firstRegion regions c.center = none ∧
          assignAll regions cells = Except.error (PyError.cellNotInRegion c) := by
  intro cells
  induction cells with
  | nil =>
    rintro ⟨c, hc, _⟩
    exact absurd hc (List.not_mem_nil c)
  | cons c cs ih =>
    rintro ⟨d, hd, hdn⟩
    by_cases hfc : firstRegion regions c.center = none
    · refine ⟨c, List.mem_cons_self c cs, hfc, ?_⟩
      simp only [assignAll]
      rw [hfc]
    · have hd' : d ∈ cs := by
        rcases List.mem_cons.mp hd with rfl | h
        · exact absurd hdn hfc
        · exact h
      obtain ⟨e, he, hen, heq⟩ := ih ⟨d, hd', hdn⟩
      refine ⟨e, List.mem_cons_of_mem c he, hen, ?_⟩
      simp only [assignAll]
      cases hfc2 : firstRegion regions c.center with
      | none => exact absurd hfc2 hfc
      | some j =>
        rw [heq]
        rfl

lemma partitionGo_flatten (n : Nat) :
    ∀ (fuel : Nat) (l : List Nat), l.length ≤ fuel →
      (partitionGo (n + 1) fuel l).flatten = l := by
  intro fuel
  induction fuel with
  | zero =>
    intro l hl
    cases l with
    | nil => rfl
    | cons a rest => simp at hl
  | succ fuel ih =>
    intro l hl
    cases l with
    | nil => rfl
    | cons a rest =>
      simp only [partitionGo, List.flatten_cons]
      rw [ih _ (by
        simp only [List.length_drop, List.length_cons]
        simp only [List.length_cons] at hl
        omega)]
      exact List.take_append_drop _ _

lemma partition_list_flatten (l : List Nat) (n : Nat) (hn : n ≠ 0) :
    (partition_list l n).flatten = l := by
  cases n with
  | zero => exact absurd rfl hn
  | succ n => exact partitionGo_flatten n l.length l le_rfl

/-- Claim C5: whenever the sorting phase succeeds, `locate_cells` assigns
each sorted cell the index of the first region in discovery order whose
point set contains the cell's center; it raises the fatal
unassigned-cell error exactly when some sorted cell's center lies in no
region, and it never silently drops a cell: on success the flattened
matrix has exactly one entry per sorted cell. -/
theorem locate_cells_assignment (regions : List (Finset Point)) (cells : List Rect)
    (height : Nat) (sorted : List Rect)
    (hs : sortCells cells height = Except.ok sorted) (hh : height ≠ 0) :
    ((∃ c ∈ sorted, ∀ r ∈ regions, c.center ∉ r) →
      ∃ c ∈ sorted, (∀ r ∈ regions, c.center ∉ r) ∧
        locate_cells regions cells height
          = Except.error (PyError.cellNotInRegion c)) ∧
    ((∀ c ∈ sorted, ∃ r ∈ regions, c.center ∈ r) →
      ∃ m, locate_cells regions cells height = Except.ok m ∧
        m.flatten.length = sorted.length ∧
        ∀ i, i < sorted.length →
          ∃ j, j < regions.length ∧ m.flatten.getD i 0 = j ∧
            (sorted.getD i default).center ∈ regions.getD j ∅ ∧
            ∀ k, k < j → (sorted.getD i default).center ∉ regions.getD k ∅) := by
  constructor
  · rintro ⟨c, hc, hnone⟩
    obtain ⟨e, he, hen, heq⟩ := assignAll_error regions sorted
      ⟨c, hc, (firstRegion_none_iff regions c.center).mpr hnone⟩
    refine ⟨e, he, (firstRegion_none_iff regions e.center).mp hen, ?_⟩
    simp only [locate_cells, hs, heq]
  · intro hcov
    have hne : ∀ c ∈ sorted, firstRegion regions c.center ≠ none := by
      intro c hc hnone
      obtain ⟨r, hr, hmem⟩ := hcov c hc
      exact (firstRegion_none_iff regions c.center).mp hnone r hr hmem
    have hok := assignAll_ok regions sorted hne
    refine ⟨partition_list
        (sorted.map fun c => (firstRegion regions c.center).getD 0) height,
      ?_, ?_, ?_⟩
    · simp only [locate_cells, hs, hok]
      rw [if_neg hh]
    · rw [partition_list_flatten _ _ hh, List.length_map]
    · intro i hi
      rw [partition_list_flatten _ _ hh]
      have hgD : sorted.getD i default = sorted.get ⟨i, hi⟩ := by
        rw [List.getD_eq_getElem?_getD, List.getElem?_eq_getElem hi, Option.getD_some,
          List.get_eq_getElem]
      have hmemx : sorted.get ⟨i, hi⟩ ∈ sorted := List.get_mem sorted i hi
      obtain ⟨j0, hj0⟩ :=
        Option.ne_none_iff_exists'.mp (hne (sorted.get ⟨i, hi⟩) hmemx)
      obtain ⟨hlt, hmemr, hnoner⟩ :=
        firstRegion_some regions ((sorted.get ⟨i, hi⟩).center) j0 hj0
      rw [List.get_eq_getElem] at hj0
      refine ⟨j0, hlt, ?_, ?_, ?_⟩
      · rw [List.getD_eq_getElem?_getD, List.getElem?_map, List.getElem?_eq_getElem hi,
          Option.map_some', Option.getD_some, hj0]
        rfl
      · rw [hgD, List.get_eq_getElem]
        rw [List.get_eq_getElem] at hmemr
        exact hmemr
      · intro k hk
        rw [hgD]
        exact hnoner k hk

/-- Witness for C5 at a one-cell, one-region instance with gridHeight 1. -/
theorem locate_cells_assignment_witness :
    ((∃ c ∈ [(⟨0, 0, 4, 4⟩ : Rect)], ∀ r ∈ [({⟨2, 2⟩} : Finset Point)], c.center ∉ r) →
      ∃ c ∈ [(⟨0, 0, 4, 4⟩ : Rect)], (∀ r ∈ [({⟨2, 2⟩} : Finset Point)], c.center ∉ r) ∧
        locate_cells [({⟨2, 2⟩} : Finset Point)] [⟨0, 0, 4, 4⟩] 1
          = Except.error (PyError.cellNotInRegion c)) ∧
    ((∀ c ∈ [(⟨0, 0, 4, 4⟩ : Rect)], ∃ r ∈ [({⟨2, 2⟩} : Finset Point)], c.center ∈ r) →
      ∃ m, locate_cells [({⟨2, 2⟩} : Finset Point)] [⟨0, 0, 4, 4⟩] 1 = Except.ok m ∧
        m.flatten.length = [(⟨0, 0, 4, 4⟩ : Rect)].length ∧
        ∀ i, i < [(⟨0, 0, 4, 4⟩ : Rect)].length →
          ∃ j, j < [({⟨2, 2⟩} : Finset Point)].length ∧ m.flatten.getD i 0 = j ∧
            ([(⟨0, 0, 4, 4⟩ : Rect)].getD i default).center
              ∈ [({⟨2, 2⟩} : Finset Point)].getD j ∅ ∧
            ∀ k, k < j → ([(⟨0, 0, 4, 4⟩ : Rect)].getD i default).center
              ∉ [({⟨2, 2⟩} : Finset Point)].getD k ∅) :=
  locate_cells_assignment [({⟨2, 2⟩} : Finset Point)] [⟨0, 0, 4, 4⟩] 1 [⟨0, 0, 4, 4⟩]
    (by decide) (by decide)

/-- Claim C9: when the near-white pass of `find_cells` discovers zero
areas, the mean-area computation divides by `len(cells) = 0` and Python
raises `ZeroDivisionError` instead of returning an empty list. -/
theorem find_cells_zero_division (img : Img)
    (h : find_areas img ALMOST_WHITE true false false = []) :
    find_cells img = Except.error PyError.zeroDivisionError := by
  simp [find_cells, h, rectsOf]

/-- Witness for C9: a 1-pixel all-black image has no near-white areas. -/
theorem find_cells_zero_division_witness :
    find_areas black1 ALMOST_WHITE true false false = [] ∧
    find_cells black1 = Except.error PyError.zeroDivisionError :=
  ⟨by decide, find_cells_zero_division black1 (by decide)⟩

/-- Claim C1 (failing input): six cells forming two logical rows of three,
gridHeight 2.  `locate_cells` partitions the flat index list
`[0,0,0,1,1,1]` into chunks of length `height = 2`, yielding three rows
of length two — not two rows of length three as the claim states. -/
theorem locate_cells_chunk_shape :
    locate_cells c1Regions c1Cells 2 = Except.ok [[0, 0], [0, 1], [1, 1]] := by decide

/-- Claim C2 (failing input): cells with areas `[100, 98, 102, 20]` give
mean 80 and `min_area = 20`; the filter keeps `area >= min_area`, so the
boundary box of area exactly `mean/4 = 20` is retained — all four cells
survive, contrary to the claim (and to the code's own comment). -/
theorem filterCells_boundary_retained :
    filterCells [⟨0, 0, 10, 10⟩, ⟨0, 0, 7, 14⟩, ⟨0, 0, 6, 17⟩, ⟨0, 0, 4, 5⟩]
      = [⟨0, 0, 10, 10⟩, ⟨0, 0, 7, 14⟩, ⟨0, 0, 6, 17⟩, ⟨0, 0, 4, 5⟩] := by
  simp only [filterCells, Rect.area, List.map_cons, List.map_nil, List.sum_cons,
    List.sum_nil, List.length_cons, List.length_nil]
  norm_num [List.filter]

/-- Claim C3 (failing input): a pixel exactly equal to the cutoff is
thresholded to black, not white: `cv.THRESH_BINARY` uses a strict
comparison.  With the default cutoff 127 a 127-intensity pixel becomes
black and no white area is found. -/
theorem threshold_boundary_black :
    (threshImg g127 MID_GRAY).val ⟨0, 0⟩ = BLACK ∧
    find_areas g127 MID_GRAY false false false = [] := by decide

/-- Claim C4 counterexample: the default threshold is not 128 — it is
`MID_GRAY = 255 // 2 = 127`, and the two cutoffs behave differently on a
128-intensity pixel. -/
theorem default_threshold_not_128 :
    find_areas_default_threshold ≠ 128 ∧
    find_areas g128 find_areas_default_threshold false false false
      ≠ find_areas g128 128 false false false := by decide

/-- Claim C4 (amended): the `threshold` parameter of `find_areas`
defaults to `MID_GRAY = WHITE // 2 = 127`, the value the internal callers
`find_regions` and `find_puzzles` rely on. -/
theorem default_threshold_127 :
    find_areas_default_threshold = 127 ∧
    (∀ img, find_regions img = find_areas img 127 true false true) ∧
    (∀ img, find_puzzles img = find_areas img 127 false true false) :=
  ⟨rfl, fun _ => rfl, fun _ => rfl⟩

/-- Witness for C8: a singleton store holding a 1-pixel white image; the
source buffer is untouched and the areas agree with the pure function. -/
theorem find_areas_store_frame_witness :
    (find_areas_store [white1] 0 MID_GRAY true false false).1[0]? = [white1][0]? ∧
    (find_areas_store [white1] 0 MID_GRAY true false false).2
      = find_areas ([white1].getD 0 default) MID_GRAY true false false :=
  find_areas_store_frame [white1] 0 0 MID_GRAY true false false (by decide) (by decide)
